import Mathlib

/-!
Verification of the instance launch orchestrator in `run_camoufox.py`.

The embedding is shallow: strings are Lean `String`s manipulated through their
character lists, filesystem paths are lists of name components (absolute,
rooted), and the side-effecting orchestrator (`main`) is a pure function that
returns the trace of observable events (spawns, pacing sleeps, termination
signals, join confirmations) together with the run outcome.  An interrupt
(`KeyboardInterrupt`) is modelled by the blocking operation during which it
fires: the k-th executed pacing sleep, or the k-th executed join.
-/

/-- Model of `str.strip()`: drop whitespace from both ends. -/
def trimStr (s : String) : String :=
  ⟨((s.data.dropWhile Char.isWhitespace).reverse.dropWhile Char.isWhitespace).reverse⟩

/-- Model of `str.lower()` (ASCII case folding suffices for the `.json` check). -/
def lowerStr (s : String) : String :=
  ⟨s.data.map Char.toLower⟩

/-- Model of `os.path.basename` on POSIX: the part after the last `/`. -/
def basenameL (l : List Char) : List Char :=
  (l.reverse.takeWhile (fun ch => ch != '/')).reverse

/-- `os.path.basename(c) == c`, i.e. the candidate has no directory component. -/
def passBasename (c : String) : Bool :=
  basenameL c.data == c.data

/-- Split a character list on `/`, keeping empty segments (like `str.split('/')`). -/
def splitSlashAux : List Char → List Char → List (List Char)
  | [], cur => [cur.reverse]
  | ch :: rest, cur =>
    if ch = '/' then cur.reverse :: splitSlashAux rest []
    else splitSlashAux rest (ch :: cur)

def splitSlash (l : List Char) : List (List Char) :=
  splitSlashAux l []

/-- `f.lower().endswith('.json')`: the discovery filter and the validator's
extension check. -/
def hasJsonExt (s : String) : Bool :=
  List.isSuffixOf (String.data ".json") (lowerStr s).data

/-- One step of lexical path resolution: `.` and empty segments are dropped,
`..` pops one component (staying at the root when already there). -/
def resolveStep (acc : List String) (comp : String) : List String :=
  if comp = "" ∨ comp = "." then acc
  else if comp = ".." then acc.dropLast
  else acc ++ [comp]

def resolveComps (start : List String) (comps : List String) : List String :=
  comps.foldl resolveStep start

/-- Model of `(cookies_root / candidate).resolve()` in a symlink-free
filesystem: join the candidate onto the (already resolved) root and normalise.
A candidate starting with `/` is absolute and replaces the root, as with
`pathlib`'s `/` operator. -/
def resolvePath (root : List String) (c : String) : List String :=
  match (splitSlash c.data).map (fun l => (⟨l⟩ : String)) with
  | [] => root
  | first :: rest =>
    if first = "" then resolveComps [] (first :: rest)
    else resolveComps root (first :: rest)

/-- `cookies_root in resolved.parents`: the root is a strict ancestor. -/
def pathIsParent (root r : List String) : Bool :=
  root.isPrefixOf r && root != r

/-- The containment check of lines 103-109: accept when the resolved path has
the cookies root among its parents or equals it. -/
def withinRoot (root : List String) (c : String) : Bool :=
  let r := resolvePath root c
  pathIsParent root r || r == root

/-- The three per-profile checks of `main` (lines 90-109), in source order:
basename, extension, containment.  `true` means the profile is spawned. -/
def validOk (root : List String) (c : String) : Bool :=
  passBasename c && hasJsonExt c && withinRoot root c

/-- The environment variables read by `load_instances_from_env`. -/
structure Env where
  instanceUrl : Option String
  headlessVar : Option String
  proxyVar : Option String
deriving DecidableEq

/-- `_clean_env_value`: `None` stays `None`, otherwise strip and turn an empty
result into `None`. -/
def cleanEnvValue : Option String → Option String
  | none => none
  | some raw =>
    let s := trimStr raw
    if s = "" then none else some s

/-- The `global_settings` dict: always carries `headless` and `url`, and
`proxy` when the variable is set. -/
structure GlobalSettings where
  headless : String
  url : String
  proxy : Option String
deriving DecidableEq

/-- One instance profile: `{"cookie_file": f}`. -/
structure Profile where
  cookie_file : String
deriving DecidableEq

/-- The merged `final_config = global_settings.copy(); final_config.update(profile)`.
The merge always yields both a `url` and a `cookie_file` field, so the
line-86 missing-field guard can never fire on configs built by `main`. -/
structure FinalConfig where
  headless : String
  url : String
  proxy : Option String
  cookie_file : String
deriving DecidableEq

def mkFinalConfig (gs : GlobalSettings) (p : Profile) : FinalConfig :=
  { headless := gs.headless, url := gs.url, proxy := gs.proxy,
    cookie_file := p.cookie_file }

/-- The three distinct error logs of `load_instances_from_env`, each followed
by `return None, None`. -/
inductive LoadError where
  | missingUrl
  | missingDir
  | noCookieFiles
deriving DecidableEq

/-- `load_instances_from_env`: check the shared URL, build the global
settings, check the cookies directory, filter the listing to `.json` files,
and build one profile per file.  `dirExists` stands for
`os.path.isdir(cookie_path)` and `listing` for `os.listdir(cookie_path)`. -/
def loadInstancesFromEnv (env : Env) (dirExists : Bool) (listing : List String) :
    Except LoadError (GlobalSettings × List Profile) :=
  match cleanEnvValue env.instanceUrl with
  | none => Except.error LoadError.missingUrl
  | some sharedUrl =>
    let gs : GlobalSettings :=
      { headless := (cleanEnvValue env.headlessVar).getD "virtual",
        url := sharedUrl,
        proxy := cleanEnvValue env.proxyVar }
    if !dirExists then Except.error LoadError.missingDir
    else
      let cookieFiles := listing.filter hasJsonExt
      if cookieFiles.isEmpty then Except.error LoadError.noCookieFiles
      else Except.ok (gs, cookieFiles.map (fun f => { cookie_file := f }))

/-- Observable actions of `main`. -/
inductive Event where
  | spawn (cfg : FinalConfig)
  | pacingSleep (secs : Nat)
  | termSignal (idx : Nat)
  | joinConfirm (idx : Nat)
deriving DecidableEq

/-- How the run ends. -/
inductive Outcome where
  | configHalt (e : LoadError)
  | noProfilesHalt
  | noValidHalt
  | normal
  | uncaughtInterrupt
deriving DecidableEq

/-- Where the (single) `KeyboardInterrupt` fires, counting executed blocking
operations of the given kind. -/
inductive InterruptPoint where
  | duringPacing (k : Nat)
  | duringJoin (k : Nat)
deriving DecidableEq

def decBudget : Option Nat → Option Nat
  | none => none
  | some n => some (n - 1)

/-- The launch loop (lines 82-119).  `total = len(instance_profiles)`, `i` is
the 1-based `enumerate` index.  An interrupt budget of `some 0` fires during
the next executed pacing sleep; the sleep sits outside any handler, so the
loop stops there with the interrupted flag set.  Returns the event trace, the
spawned configs in order (the `processes` list), and the interrupted flag. -/
def spawnPhase (gs : GlobalSettings) (root : List String) (total : Nat) :
    List Profile → Nat → Option Nat → List Event × List FinalConfig × Bool
  | [], _, _ => ([], [], false)
  | p :: rest, i, intr =>
    if validOk root p.cookie_file then
      let cfg := mkFinalConfig gs p
      if i < total then
        match intr with
        | some 0 => ([Event.spawn cfg], [cfg], true)
        | _ =>
          let out := spawnPhase gs root total rest (i + 1) (decBudget intr)
          (Event.spawn cfg :: Event.pacingSleep 30 :: out.1, cfg :: out.2.1, out.2.2)
      else
        let out := spawnPhase gs root total rest (i + 1) intr
        (Event.spawn cfg :: out.1, cfg :: out.2.1, out.2.2)
    else
      spawnPhase gs root total rest (i + 1) intr

/-- The `except KeyboardInterrupt` sweep (lines 132-134): terminate then join
every tracked process, in list order, regardless of its state. -/
def sweepEvents : Nat → List Event
  | 0 => []
  | n + 1 => sweepEvents n ++ [Event.termSignal n, Event.joinConfirm n]

/-- The supervising loop (lines 127-135) over process indices.  An interrupt
budget of `some 0` fires during the next join; the handler then runs the
termination sweep over all `total` processes and the function still returns
normally.  The flag records whether the sweep ran. -/
def joinLoop (total : Nat) : List Nat → Option Nat → List Event × Bool
  | [], _ => ([], false)
  | idx :: rest, intr =>
    match intr with
    | some 0 => (sweepEvents total, true)
    | _ =>
      let out := joinLoop total rest (decBudget intr)
      (Event.joinConfirm idx :: out.1, out.2)

/-- `main`: create the log and cookies directories (hence discovery always
sees an existing cookies directory), load the configuration, run the launch
loop, halt if nothing spawned, otherwise supervise. -/
def runMain (env : Env) (root : List String) (listing : List String)
    (intr : Option InterruptPoint) : List Event × Outcome :=
  match loadInstancesFromEnv env true listing with
  | Except.error e => ([], Outcome.configHalt e)
  | Except.ok (gs, profiles) =>
    if profiles.isEmpty then ([], Outcome.noProfilesHalt)
    else
      let pIntr := match intr with
        | some (InterruptPoint.duringPacing k) => some k
        | _ => none
      let jIntr := match intr with
        | some (InterruptPoint.duringJoin k) => some k
        | _ => none
      let s := spawnPhase gs root profiles.length profiles 1 pIntr
      if s.2.2 then (s.1, Outcome.uncaughtInterrupt)
      else if s.2.1.isEmpty then (s.1, Outcome.noValidHalt)
      else
        let j := joinLoop s.2.1.length (List.range s.2.1.length) jIntr
        (s.1 ++ j.1, Outcome.normal)

/-- The configurations handed to spawned workers, in spawn order. -/
def spawnedOf (evs : List Event) : List FinalConfig :=
  evs.filterMap (fun e => match e with
    | Event.spawn cfg => some cfg
    | _ => none)

/-- A launch trace is well paced when spawns and pacing sleeps strictly
alternate starting with a spawn: exactly one sleep between consecutive
spawns, no sleep before the first spawn, at most one sleep at the end. -/
def paced : List Event → Bool
  | [] => true
  | [Event.spawn _] => true
  | Event.spawn _ :: Event.pacingSleep _ :: rest => paced rest
  | _ => false

/-- The launch trace of a fully valid profile list: a pacing sleep between
consecutive spawns and none after the last. -/
def pacedTrace : List FinalConfig → List Event
  | [] => []
  | [cfg] => [Event.spawn cfg]
  | cfg :: cfg2 :: rest =>
    Event.spawn cfg :: Event.pacingSleep 30 :: pacedTrace (cfg2 :: rest)

/-- Concrete fixtures used by witnesses and counterexamples. -/
def envX : Env := { instanceUrl := some "https://x.test", headlessVar := none, proxyVar := none }

def gsX : GlobalSettings := { headless := "virtual", url := "https://x.test", proxy := none }

def rootX : List String := ["app", "cookies"]

def cfgA : FinalConfig :=
  { headless := "virtual", url := "https://x.test", proxy := none, cookie_file := "a.json" }

lemma basenameL_ne_of_slash {l : List Char} (h : '/' ∈ l) : basenameL l ≠ l := by
  intro heq
  have h2 : l.reverse.takeWhile (fun ch => ch != '/') = l.reverse := by
    have := congrArg List.reverse heq
    simpa [basenameL, List.reverse_reverse] using this
  have h3 := List.takeWhile_eq_self_iff.mp h2 '/' (List.mem_reverse.mpr h)
  simp at h3

lemma no_slash_of_passBasename {c : String} (h : passBasename c = true) :
    '/' ∉ c.data := by
  intro hmem
  exact basenameL_ne_of_slash hmem (by simpa [passBasename] using h)

lemma splitSlashAux_no_slash {l : List Char} (h : '/' ∉ l) :
    ∀ cur, splitSlashAux l cur = [cur.reverse ++ l] := by
  induction l with
  | nil => intro cur; simp [splitSlashAux]
  | cons ch rest ih =>
    intro cur
    have hch : ch ≠ '/' := fun he => h (he ▸ List.mem_cons_self ch rest)
    have hrest : '/' ∉ rest := fun hm => h (List.mem_cons_of_mem ch hm)
    rw [splitSlashAux, if_neg hch, ih hrest (ch :: cur), List.reverse_cons,
      List.append_assoc, List.singleton_append]

lemma splitSlash_no_slash {l : List Char} (h : '/' ∉ l) : splitSlash l = [l] := by
  simpa [splitSlash] using splitSlashAux_no_slash h []

lemma length_ge_of_hasJsonExt {c : String} (h : hasJsonExt c = true) :
    5 ≤ c.data.length := by
  simp [hasJsonExt] at h
  have := h.length_le
  simpa [lowerStr] using this

lemma data_length_ne {c d : String} (h : c.data.length ≠ d.data.length) : c ≠ d :=
  fun he => h (by rw [he])

lemma resolvePath_of_clean {root : List String} {c : String}
    (hb : passBasename c = true) (he : hasJsonExt c = true) :
    resolvePath root c = root ++ [c] := by
  have hlen := length_ge_of_hasJsonExt he
  have hs : splitSlash c.data = [c.data] := splitSlash_no_slash (no_slash_of_passBasename hb)
  have hne1 : c ≠ "" := data_length_ne (by simp at hlen ⊢; omega)
  have hne2 : c ≠ "." := data_length_ne (by simp at hlen ⊢; omega)
  have hne3 : c ≠ ".." := data_length_ne (by simp at hlen ⊢; omega)
  simp only [resolvePath, hs, List.map]
  have heta : (⟨c.data⟩ : String) = c := rfl
  rw [heta]
  simp [hne1, resolveComps, resolveStep, hne2, hne3]

lemma pathIsParent_append (root : List String) (x : String) :
    pathIsParent root (root ++ [x]) = true := by
  simp only [pathIsParent, Bool.and_eq_true, bne_iff_ne, ne_eq]
  refine ⟨by simp, fun hcontra => ?_⟩
  have := congrArg List.length hcontra
  simp at this

lemma spawnPhase_skip (gs : GlobalSettings) (root : List String) (total : Nat)
    {p : Profile} (rest : List Profile) (i : Nat) (intr : Option Nat)
    (h : validOk root p.cookie_file = false) :
    spawnPhase gs root total (p :: rest) i intr = spawnPhase gs root total rest (i + 1) intr := by
  simp [spawnPhase, h]

lemma spawnPhase_all_invalid (gs : GlobalSettings) (root : List String) (total : Nat) :
    ∀ (l : List Profile) (i : Nat) (intr : Option Nat),
      (∀ p ∈ l, validOk root p.cookie_file = false) →
      spawnPhase gs root total l i intr = ([], [], false) := by
  intro l
  induction l with
  | nil => intro i intr _; rfl
  | cons p rest ih =>
    intro i intr h
    rw [spawnPhase_skip gs root total rest i intr (h p (List.mem_cons_self p rest))]
    exact ih (i + 1) intr (fun q hq => h q (List.mem_cons_of_mem p hq))

lemma spawnPhase_none_flag (gs : GlobalSettings) (root : List String) (total : Nat) :
    ∀ (l : List Profile) (i : Nat), (spawnPhase gs root total l i none).2.2 = false := by
  intro l
  induction l with
  | nil => intro i; rfl
  | cons p rest ih =>
    intro i
    by_cases hv : validOk root p.cookie_file
    · by_cases hi : i < total
      · simp [spawnPhase, hv, hi, decBudget, ih (i + 1)]
      · simp [spawnPhase, hv, hi, ih (i + 1)]
    · simp [spawnPhase, hv, ih (i + 1)]

lemma spawnPhase_cfgs_none (gs : GlobalSettings) (root : List String) (total : Nat) :
    ∀ (l : List Profile) (i : Nat),
      (spawnPhase gs root total l i none).2.1
        = (l.filter (fun p => validOk root p.cookie_file)).map (mkFinalConfig gs) := by
  intro l
  induction l with
  | nil => intro i; rfl
  | cons p rest ih =>
    intro i
    by_cases hv : validOk root p.cookie_file
    · by_cases hi : i < total
      · simp [spawnPhase, hv, hi, decBudget, ih (i + 1), List.filter_cons]
      · simp [spawnPhase, hv, hi, ih (i + 1), List.filter_cons]
    · simp [spawnPhase, hv, ih (i + 1), List.filter_cons]

lemma spawnedOf_append (a b : List Event) :
    spawnedOf (a ++ b) = spawnedOf a ++ spawnedOf b := by
  simp [spawnedOf, List.filterMap_append]

lemma spawnedOf_cons_spawn (cfg : FinalConfig) (evs : List Event) :
    spawnedOf (Event.spawn cfg :: evs) = cfg :: spawnedOf evs := by
  simp [spawnedOf]

lemma spawnedOf_cons_sleep (s : Nat) (evs : List Event) :
    spawnedOf (Event.pacingSleep s :: evs) = spawnedOf evs := by
  simp [spawnedOf]

lemma spawnedOf_cons_term (i : Nat) (evs : List Event) :
    spawnedOf (Event.termSignal i :: evs) = spawnedOf evs := by
  simp [spawnedOf]

lemma spawnedOf_cons_join (i : Nat) (evs : List Event) :
    spawnedOf (Event.joinConfirm i :: evs) = spawnedOf evs := by
  simp [spawnedOf]

lemma spawnPhase_cons_valid_lt_none (gs : GlobalSettings) (root : List String)
    (total : Nat) {p : Profile} (rest : List Profile) (i : Nat)
    (hv : validOk root p.cookie_file = true) (hi : i < total) :
    spawnPhase gs root total (p :: rest) i none
      = (Event.spawn (mkFinalConfig gs p) :: Event.pacingSleep 30 ::
           (spawnPhase gs root total rest (i + 1) none).1,
         mkFinalConfig gs p :: (spawnPhase gs root total rest (i + 1) none).2.1,
         (spawnPhase gs root total rest (i + 1) none).2.2) := by
  simp [spawnPhase, hv, hi, decBudget]

lemma spawnedOf_spawnPhase_none (gs : GlobalSettings) (root : List String) (total : Nat) :
    ∀ (l : List Profile) (i : Nat),
      spawnedOf (spawnPhase gs root total l i none).1
        = (l.filter (fun p => validOk root p.cookie_file)).map (mkFinalConfig gs) := by
  intro l
  induction l with
  | nil => intro i; rfl
  | cons p rest ih =>
    intro i
    by_cases hv : validOk root p.cookie_file
    · by_cases hi : i < total
      · simp [spawnPhase, hv, hi, decBudget, List.filter_cons, ← ih (i + 1), spawnedOf]
      · simp [spawnPhase, hv, hi, List.filter_cons, ← ih (i + 1), spawnedOf]
    · simp [spawnPhase, hv, List.filter_cons, ← ih (i + 1)]

lemma paced_spawnPhase (gs : GlobalSettings) (root : List String) (total : Nat) :
    ∀ (l : List Profile) (i : Nat) (intr : Option Nat), i + l.length = total + 1 →
      paced (spawnPhase gs root total l i intr).1 = true := by
  intro l
  induction l with
  | nil => intro i intr _; rfl
  | cons p rest ih =>
    intro i intr hinv
    simp only [List.length_cons] at hinv
    by_cases hv : validOk root p.cookie_file
    · by_cases hi : i < total
      · cases intr with
        | none =>
          have hrec := ih (i + 1) none (by omega)
          simp [spawnPhase, hv, hi, decBudget, paced, hrec]
        | some n =>
          cases n with
          | zero => simp [spawnPhase, hv, hi, paced]
          | succ m =>
            have hrec := ih (i + 1) (some m) (by omega)
            simp [spawnPhase, hv, hi, decBudget, paced, hrec]
      · have hrest : rest = [] := List.length_eq_zero.mp (by omega)
        subst hrest
        simp [spawnPhase, hv, hi, paced]
    · have hrec := ih (i + 1) intr (by omega)
      simp [spawnPhase, hv, hrec]

lemma spawnPhase_pacedTrace (gs : GlobalSettings) (root : List String) (total : Nat) :
    ∀ (l : List Profile) (i : Nat),
      (∀ p ∈ l, validOk root p.cookie_file = true) →
      i + l.length = total + 1 →
      (spawnPhase gs root total l i none).1 = pacedTrace (l.map (mkFinalConfig gs)) := by
  intro l
  induction l with
  | nil => intro i _ _; rfl
  | cons p rest ih =>
    intro i hval hinv
    simp only [List.length_cons] at hinv
    have hv := hval p (List.mem_cons_self p rest)
    cases rest with
    | nil =>
      have hi : ¬ i < total := by simp at hinv; omega
      simp [spawnPhase, hv, hi, pacedTrace]
    | cons q rs =>
      have hi : i < total := by simp at hinv; omega
      have hrec := ih (i + 1) (fun r hr => hval r (List.mem_cons_of_mem p hr))
        (by simp at hinv ⊢; omega)
      rw [spawnPhase_cons_valid_lt_none gs root total (q :: rs) i hv hi]
      rw [hrec]
      simp [pacedTrace]

lemma mem_sweepEvents_term : ∀ {n i : Nat}, i < n → Event.termSignal i ∈ sweepEvents n := by
  intro n
  induction n with
  | zero => intro i h; exact absurd h (Nat.not_lt_zero i)
  | succ m ih =>
    intro i h
    rcases Nat.lt_succ_iff_lt_or_eq.mp h with h' | h'
    · exact List.mem_append_left _ (ih h')
    · subst h'
      exact List.mem_append_right _ (by simp)

lemma mem_sweepEvents_join : ∀ {n i : Nat}, i < n → Event.joinConfirm i ∈ sweepEvents n := by
  intro n
  induction n with
  | zero => intro i h; exact absurd h (Nat.not_lt_zero i)
  | succ m ih =>
    intro i h
    rcases Nat.lt_succ_iff_lt_or_eq.mp h with h' | h'
    · exact List.mem_append_left _ (ih h')
    · subst h'
      exact List.mem_append_right _ (by simp)

lemma spawnedOf_sweepEvents : ∀ n, spawnedOf (sweepEvents n) = [] := by
  intro n
  induction n with
  | zero => rfl
  | succ m ih =>
    rw [sweepEvents, spawnedOf_append, ih]
    rfl

lemma joinLoop_interrupt (total : Nat) :
    ∀ (l : List Nat) (k : Nat), k < l.length →
      joinLoop total l (some k) = ((l.take k).map Event.joinConfirm ++ sweepEvents total, true) := by
  intro l
  induction l with
  | nil => intro k h; exact absurd h (by simp)
  | cons idx rest ih =>
    intro k h
    cases k with
    | zero => simp [joinLoop]
    | succ m =>
      have hm : m < rest.length := by simp at h; omega
      simp [joinLoop, decBudget, ih m hm, List.take_succ_cons]

lemma spawnedOf_joinLoop (total : Nat) :
    ∀ (l : List Nat) (intr : Option Nat), spawnedOf (joinLoop total l intr).1 = [] := by
  intro l
  induction l with
  | nil => intro intr; rfl
  | cons idx rest ih =>
    intro intr
    cases intr with
    | none => simp [joinLoop, decBudget, spawnedOf_cons_join, ih none]
    | some n =>
      cases n with
      | zero => simp [joinLoop, spawnedOf_sweepEvents]
      | succ m => simp [joinLoop, decBudget, spawnedOf_cons_join, ih (some m)]

lemma load_ok_isEmpty {env : Env} {d : Bool} {listing : List String}
    {gs : GlobalSettings} {profiles : List Profile}
    (h : loadInstancesFromEnv env d listing = Except.ok (gs, profiles)) :
    profiles.isEmpty = false := by
  simp only [loadInstancesFromEnv] at h
  cases hcln : cleanEnvValue env.instanceUrl with
  | none => rw [hcln] at h; cases h
  | some u =>
    rw [hcln] at h
    simp only at h
    split at h
    · cases h
    · split at h
      · cases h
      · rename_i hne
        injection h with h1
        injection h1 with hgs hps
        cases hps
        cases hfilter : listing.filter hasJsonExt with
        | nil => rw [hfilter] at hne; simp at hne
        | cons a as => rfl

lemma load_ok_of_url {env : Env} {u : String} (listing : List String)
    (hurl : cleanEnvValue env.instanceUrl = some u)
    (hne : (listing.filter hasJsonExt).isEmpty = false) :
    loadInstancesFromEnv env true listing =
      Except.ok ({ headless := (cleanEnvValue env.headlessVar).getD "virtual",
                   url := u, proxy := cleanEnvValue env.proxyVar },
                 (listing.filter hasJsonExt).map (fun f => { cookie_file := f })) := by
  simp [loadInstancesFromEnv, hurl, hne]

/-- C4: for every candidate credential filename whose resolved absolute path
does not lie strictly within the resolved profiles directory, the validator
rejects the profile (`validOk` is `false`) and the launch loop spawns no
worker for it, continuing with the remaining profiles. -/
theorem resolve_outside_root_rejected (root : List String) (c : String)
    (h : pathIsParent root (resolvePath root c) = false) :
    validOk root c = false ∧
    ∀ (gs : GlobalSettings) (total : Nat) (rest : List Profile) (i : Nat) (intr : Option Nat),
      spawnPhase gs root total ({ cookie_file := c } :: rest) i intr
        = spawnPhase gs root total rest (i + 1) intr := by
  have hval : validOk root c = false := by
    rcases Bool.eq_false_or_eq_true (passBasename c) with hb | hb
    · rcases Bool.eq_false_or_eq_true (hasJsonExt c) with hext | hext
      · exfalso
        rw [resolvePath_of_clean hb hext, pathIsParent_append root c] at h
        exact Bool.noConfusion h
      · simp [validOk, hext]
    · simp [validOk, hb]
  exact ⟨hval, fun gs total rest i intr => spawnPhase_skip gs root total rest i intr hval⟩

/-- C4 witness: `../evil.json` resolves outside the profiles root `["r"]`,
is rejected, and its profile is skipped by the launch loop. -/
theorem resolve_outside_root_rejected_witness :
    pathIsParent ["r"] (resolvePath ["r"] "../evil.json") = false ∧
    validOk ["r"] "../evil.json" = false ∧
    spawnPhase gsX ["r"] 1 [{ cookie_file := "../evil.json" }] 1 none
      = spawnPhase gsX ["r"] 1 [] 2 none :=
  ⟨by decide, (resolve_outside_root_rejected ["r"] "../evil.json" (by decide)).1,
   (resolve_outside_root_rejected ["r"] "../evil.json" (by decide)).2 gsX 1 [] 1 none⟩

/-- C5: a candidate credential filename containing a directory separator
(so it differs from its own basename) is rejected by the validator, and the
launch loop spawns no worker for it, processing the remaining profiles
unaffected. -/
theorem separator_in_filename_rejected (root : List String) (c : String)
    (h : '/' ∈ c.data) :
    validOk root c = false ∧
    ∀ (gs : GlobalSettings) (total : Nat) (rest : List Profile) (i : Nat) (intr : Option Nat),
      spawnPhase gs root total ({ cookie_file := c } :: rest) i intr
        = spawnPhase gs root total rest (i + 1) intr := by
  have hb : passBasename c = false := by
    rcases Bool.eq_false_or_eq_true (passBasename c) with hb | hb
    · exact absurd h (no_slash_of_passBasename hb)
    · exact hb
  have hval : validOk root c = false := by simp [validOk, hb]
  exact ⟨hval, fun gs total rest i intr => spawnPhase_skip gs root total rest i intr hval⟩

/-- C5 witness: `bad/b.json` contains a separator, is rejected, and its
profile is skipped by the launch loop. -/
theorem separator_in_filename_rejected_witness :
    '/' ∈ ("bad/b.json").data ∧
    validOk rootX "bad/b.json" = false ∧
    spawnPhase gsX rootX 1 [{ cookie_file := "bad/b.json" }] 1 none
      = spawnPhase gsX rootX 1 [] 2 none :=
  ⟨by decide, (separator_in_filename_rejected rootX "bad/b.json" (by decide)).1,
   (separator_in_filename_rejected rootX "bad/b.json" (by decide)).2 gsX 1 [] 1 none⟩

/-- C6: a candidate filename that does not end in `.json` under
case-insensitive comparison is rejected by the validator (a skip: the loop
continues with the rest), while any filename whose lowercasing ends in
`.json` passes the extension check. -/
theorem extension_check_case_insensitive (root : List String) (c : String) :
    (hasJsonExt c = false →
      validOk root c = false ∧
      ∀ (gs : GlobalSettings) (total : Nat) (rest : List Profile) (i : Nat) (intr : Option Nat),
        spawnPhase gs root total ({ cookie_file := c } :: rest) i intr
          = spawnPhase gs root total rest (i + 1) intr) ∧
    (∀ pre : List Char, (lowerStr c).data = pre ++ (String.data ".json") →
      hasJsonExt c = true) := by
  constructor
  · intro hext
    have hval : validOk root c = false := by simp [validOk, hext]
    exact ⟨hval, fun gs total rest i intr => spawnPhase_skip gs root total rest i intr hval⟩
  · intro pre hp
    simp [hasJsonExt, hp]

/-- C6 witness: `x.txt` fails the extension check and is skipped; the
uppercase variant `a.JSON` passes the extension check. -/
theorem extension_check_case_insensitive_witness :
    hasJsonExt "x.txt" = false ∧
    validOk rootX "x.txt" = false ∧
    spawnPhase gsX rootX 1 [{ cookie_file := "x.txt" }] 1 none
      = spawnPhase gsX rootX 1 [] 2 none ∧
    hasJsonExt "a.JSON" = true :=
  ⟨by decide,
   ((extension_check_case_insensitive rootX "x.txt").1 (by decide)).1,
   ((extension_check_case_insensitive rootX "x.txt").1 (by decide)).2 gsX 1 [] 1 none,
   (extension_check_case_insensitive rootX "a.JSON").2 (String.data "a") (by decide)⟩

/-- C7: when the shared endpoint variable is unset, or empty after trimming,
the run halts with the missing-endpoint configuration error before any
discovery: no event is emitted (zero spawns) and the entry point returns
normally with the error logged. -/
theorem missing_endpoint_halts_before_discovery (env : Env) (root listing : List String)
    (intr : Option InterruptPoint)
    (h : env.instanceUrl = none ∨ ∃ raw, env.instanceUrl = some raw ∧ trimStr raw = "") :
    runMain env root listing intr = ([], Outcome.configHalt LoadError.missingUrl) := by
  have hcln : cleanEnvValue env.instanceUrl = none := by
    rcases h with h | ⟨raw, hr, ht⟩
    · rw [h]; rfl
    · rw [hr]; simp [cleanEnvValue, ht]
  simp [runMain, loadInstancesFromEnv, hcln]

/-- C7 witness: with the endpoint variable unset the run halts with the
missing-endpoint error and an empty trace. -/
theorem missing_endpoint_halts_before_discovery_witness :
    ({ instanceUrl := none, headlessVar := none, proxyVar := none } : Env).instanceUrl = none ∧
    runMain { instanceUrl := none, headlessVar := none, proxyVar := none } [] ["a.json"] none
      = ([], Outcome.configHalt LoadError.missingUrl) :=
  ⟨rfl, missing_endpoint_halts_before_discovery _ [] ["a.json"] none (Or.inl rfl)⟩

/-- C9: the launch trace is well paced for any interrupt schedule — a pacing
sleep occurs only directly after a spawn and exactly one separates
consecutive spawns, however many rejected profiles lie between them — and a
run whose profiles are all rejected performs no pacing sleeps at all (its
launch trace is empty). -/
theorem pacing_only_after_successful_spawn (gs : GlobalSettings) (root : List String)
    (profiles : List Profile) (intr : Option Nat) :
    paced (spawnPhase gs root profiles.length profiles 1 intr).1 = true ∧
    ((∀ p ∈ profiles, validOk root p.cookie_file = false) →
      (spawnPhase gs root profiles.length profiles 1 intr).1 = []) := by
  refine ⟨paced_spawnPhase gs root profiles.length profiles 1 intr (by omega), fun h => ?_⟩
  rw [spawnPhase_all_invalid gs root profiles.length profiles 1 intr h]

/-- C9 witness: a run over one rejected profile has a well-paced (indeed
empty) launch trace and performs no pacing sleep. -/
theorem pacing_only_after_successful_spawn_witness :
    paced (spawnPhase gsX rootX 1 [{ cookie_file := "bad.txt" }] 1 none).1 = true ∧
    validOk rootX "bad.txt" = false ∧
    (spawnPhase gsX rootX 1 [{ cookie_file := "bad.txt" }] 1 none).1 = [] :=
  ⟨(pacing_only_after_successful_spawn gsX rootX [{ cookie_file := "bad.txt" }] none).1,
   by decide,
   (pacing_only_after_successful_spawn gsX rootX [{ cookie_file := "bad.txt" }] none).2
     (by decide)⟩

/-- C8: when discovery succeeds but every discovered profile is rejected by
validation, the run emits no event at all — zero spawns, no pacing, and no
join (so the Supervising phase is never entered) — and halts with the
no-valid-instances configuration error. -/
theorem all_profiles_rejected_zero_spawn_halt (env : Env) (root listing : List String)
    (intr : Option InterruptPoint) (gs : GlobalSettings) (profiles : List Profile)
    (hload : loadInstancesFromEnv env true listing = Except.ok (gs, profiles))
    (hinv : ∀ p ∈ profiles, validOk root p.cookie_file = false) :
    runMain env root listing intr = ([], Outcome.noValidHalt) := by
  have hpe := load_ok_isEmpty hload
  have hsp : ∀ pIntr : Option Nat,
      spawnPhase gs root profiles.length profiles 1 pIntr = ([], [], false) :=
    fun pIntr => spawnPhase_all_invalid gs root profiles.length profiles 1 pIntr hinv
  simp [runMain, hload, hpe, hsp]

/-- C8 witness: one discovered profile, rejected for its path component:
the run halts with the no-valid-instances error and an empty trace. -/
theorem all_profiles_rejected_zero_spawn_halt_witness :
    loadInstancesFromEnv envX true ["bad/a.json"]
      = Except.ok (gsX, [{ cookie_file := "bad/a.json" }]) ∧
    validOk rootX "bad/a.json" = false ∧
    runMain envX rootX ["bad/a.json"] none = ([], Outcome.noValidHalt) :=
  ⟨by rfl, by decide,
   all_profiles_rejected_zero_spawn_halt envX rootX ["bad/a.json"] none gsX
     [{ cookie_file := "bad/a.json" }] (by rfl) (by decide)⟩

lemma load_true_ne_missingDir (env : Env) (listing : List String) :
    loadInstancesFromEnv env true listing ≠ Except.error LoadError.missingDir := by
  rw [loadInstancesFromEnv]
  cases cleanEnvValue env.instanceUrl with
  | none => simp
  | some u =>
    simp only [Bool.not_true]
    split
    · simp_all
    · split <;> simp

lemma runMain_configHalt {env : Env} {root listing : List String}
    {intr : Option InterruptPoint} {e : LoadError}
    (h : (runMain env root listing intr).2 = Outcome.configHalt e) :
    loadInstancesFromEnv env true listing = Except.error e := by
  unfold runMain at h
  cases hload : loadInstancesFromEnv env true listing with
  | error e2 =>
    rw [hload] at h
    simp at h
    rw [h]
  | ok pair =>
    obtain ⟨gs, profiles⟩ := pair
    rw [hload] at h
    simp only [] at h
    split at h
    · simp at h
    · split at h
      · simp at h
      · split at h
        · simp at h
        · simp at h

/-- C10: run through the entry point, the missing-profiles-directory error of
discovery is unreachable, because `main` creates the cookies directory before
discovery; a freshly created (hence empty) directory manifests instead as the
no-credential-files error. -/
theorem missing_dir_error_unreachable_from_main (env : Env) (root listing : List String)
    (intr : Option InterruptPoint) :
    (runMain env root listing intr).2 ≠ Outcome.configHalt LoadError.missingDir ∧
    (cleanEnvValue env.instanceUrl ≠ none →
      runMain env root [] intr = ([], Outcome.configHalt LoadError.noCookieFiles)) := by
  constructor
  · intro hcontra
    exact load_true_ne_missingDir env listing (runMain_configHalt hcontra)
  · intro hurl
    obtain ⟨u, hu⟩ := Option.ne_none_iff_exists'.mp hurl
    simp [runMain, loadInstancesFromEnv, hu]

/-- C10 witness: with the endpoint set and an empty (just created) cookies
directory, the run reports the no-credential-files error, and never the
missing-directory error. -/
theorem missing_dir_error_unreachable_from_main_witness :
    (runMain envX rootX [] none).2 ≠ Outcome.configHalt LoadError.missingDir ∧
    cleanEnvValue envX.instanceUrl ≠ none ∧
    runMain envX rootX [] none = ([], Outcome.configHalt LoadError.noCookieFiles) :=
  ⟨(missing_dir_error_unreachable_from_main envX rootX [] none).1,
   by decide,
   (missing_dir_error_unreachable_from_main envX rootX [] none).2 (by decide)⟩

/-- C2 counterexample: with profiles `a.json` (valid) then `bad/b.json`
(rejected), the launch loop performs a pacing sleep directly after the last
validated spawn, because the skip condition tests the position in the full
discovered list, not in the validated one.  The trace after the final spawn
contains a pacing sleep. -/
theorem pacing_sleep_after_last_spawn :
    (runMain envX rootX ["a.json", "bad/b.json"] none).1
      = [Event.spawn cfgA, Event.pacingSleep 30, Event.joinConfirm 0] ∧
    spawnedOf ((runMain envX rootX ["a.json", "bad/b.json"] none).1.drop 1) = [] ∧
    Event.pacingSleep 30 ∈ (runMain envX rootX ["a.json", "bad/b.json"] none).1.drop 1 :=
  ⟨by rfl, by rfl, by decide⟩

/-- C2 (amended): pacing separates successive spawns — exactly one pacing
sleep between consecutive spawns — and the trailing pacing sleep is skipped
exactly when the spawned attempt is the last *discovered* profile; hence when
every discovered profile is valid the trace is spawn, sleep, spawn, …, spawn
with no sleep after the last spawn. -/
theorem pacing_trace_all_valid (gs : GlobalSettings) (root : List String)
    (profiles : List Profile)
    (hv : ∀ p ∈ profiles, validOk root p.cookie_file = true) :
    (spawnPhase gs root profiles.length profiles 1 none).1
      = pacedTrace (profiles.map (mkFinalConfig gs)) :=
  spawnPhase_pacedTrace gs root profiles.length profiles 1 hv (by omega)

/-- C2 witness: two valid profiles produce the trace spawn, sleep, spawn. -/
theorem pacing_trace_all_valid_witness :
    validOk rootX "a.json" = true ∧
    validOk rootX "b.json" = true ∧
    (spawnPhase gsX rootX 2 [{ cookie_file := "a.json" }, { cookie_file := "b.json" }] 1 none).1
      = pacedTrace ([{ cookie_file := "a.json" }, { cookie_file := "b.json" }].map
          (mkFinalConfig gsX)) :=
  ⟨by decide, by decide,
   pacing_trace_all_valid gsX rootX [{ cookie_file := "a.json" }, { cookie_file := "b.json" }]
     (by decide)⟩

/-- C3: with the shared endpoint set and every discovered credential file
valid, exactly one worker is spawned per file, in discovery order, and each
spawned configuration carries the shared endpoint as its `url` and its source
profile filename as its `cookie_file`. -/
theorem valid_profiles_spawn_all (env : Env) (root listing : List String) (u : String)
    (hurl : cleanEnvValue env.instanceUrl = some u)
    (hvalid : ∀ f ∈ listing.filter hasJsonExt, validOk root f = true)
    (hne : listing.filter hasJsonExt ≠ []) :
    (spawnedOf (runMain env root listing none).1).map FinalConfig.cookie_file
      = listing.filter hasJsonExt ∧
    (spawnedOf (runMain env root listing none).1).length
      = (listing.filter hasJsonExt).length ∧
    ∀ cfg ∈ spawnedOf (runMain env root listing none).1, cfg.url = u := by
  have hfe : (listing.filter hasJsonExt).isEmpty = false := by
    cases hfi : listing.filter hasJsonExt with
    | nil => exact absurd hfi hne
    | cons a as => rfl
  have hload := load_ok_of_url listing hurl hfe
  set gs : GlobalSettings :=
    { headless := (cleanEnvValue env.headlessVar).getD "virtual",
      url := u, proxy := cleanEnvValue env.proxyVar } with hgs
  set profiles : List Profile :=
    (listing.filter hasJsonExt).map (fun f => { cookie_file := f }) with hprofiles
  have hpv : ∀ p ∈ profiles, validOk root p.cookie_file = true := by
    intro p hp
    rw [hprofiles] at hp
    obtain ⟨f, hf, rfl⟩ := List.mem_map.mp hp
    exact hvalid f hf
  have hpe : profiles.isEmpty = false := load_ok_isEmpty hload
  have hflag := spawnPhase_none_flag gs root profiles.length profiles 1
  have hfilter : profiles.filter (fun p => validOk root p.cookie_file) = profiles :=
    List.filter_eq_self.mpr hpv
  have hcfgs := spawnPhase_cfgs_none gs root profiles.length profiles 1
  rw [hfilter] at hcfgs
  have hspawned := spawnedOf_spawnPhase_none gs root profiles.length profiles 1
  rw [hfilter] at hspawned
  have hione : (spawnPhase gs root profiles.length profiles 1 none).2.1.isEmpty = false := by
    rw [hcfgs]
    cases hp2 : profiles with
    | nil => rw [hp2] at hpe; simp at hpe
    | cons a as => rfl
  have hrun : runMain env root listing none
      = ((spawnPhase gs root profiles.length profiles 1 none).1
          ++ (joinLoop (spawnPhase gs root profiles.length profiles 1 none).2.1.length
               (List.range (spawnPhase gs root profiles.length profiles 1 none).2.1.length)
               none).1,
         Outcome.normal) := by
    simp only [runMain, hload]
    simp [hpe, hflag, hione]
  rw [hrun]
  simp only [spawnedOf_append, spawnedOf_joinLoop, List.append_nil, hspawned]
  refine ⟨?_, ?_, ?_⟩
  · rw [hprofiles]
    simp only [List.map_map]
    exact List.map_id'' (fun x => rfl) _
  · rw [hprofiles]
    simp
  · intro cfg hcfg
    obtain ⟨p, hp, rfl⟩ := List.mem_map.mp hcfg
    simp [mkFinalConfig, hgs]

/-- C3 witness: one valid file `a.json`: one spawn, cookie file preserved,
and the spawned configuration carries the shared endpoint. -/
theorem valid_profiles_spawn_all_witness :
    cleanEnvValue envX.instanceUrl = some "https://x.test" ∧
    validOk rootX "a.json" = true ∧
    ["a.json"].filter hasJsonExt ≠ [] ∧
    (spawnedOf (runMain envX rootX ["a.json"] none).1).map FinalConfig.cookie_file
      = ["a.json"].filter hasJsonExt ∧
    (spawnedOf (runMain envX rootX ["a.json"] none).1).length
      = (["a.json"].filter hasJsonExt).length ∧
    cfgA.url = "https://x.test" :=
  ⟨by rfl, by decide, by decide,
   (valid_profiles_spawn_all envX rootX ["a.json"] "https://x.test"
     (by rfl) (by decide) (by decide)).1,
   (valid_profiles_spawn_all envX rootX ["a.json"] "https://x.test"
     (by rfl) (by decide) (by decide)).2.1,
   (valid_profiles_spawn_all envX rootX ["a.json"] "https://x.test"
     (by rfl) (by decide) (by decide)).2.2 cfgA (by decide)⟩

/-- C1 counterexample: an interrupt during the pacing sleep — after the first
worker is spawned and tracked — is not caught by the supervisor: the run ends
with an uncaught interrupt and no tracked handle receives a termination
signal, contrary to the claim for the Pacing phase. -/
theorem interrupt_during_pacing_is_uncaught :
    (runMain envX rootX ["a.json", "b.json"] (some (InterruptPoint.duringPacing 0))).2
      = Outcome.uncaughtInterrupt ∧
    Event.termSignal 0 ∉ (runMain envX rootX ["a.json", "b.json"]
      (some (InterruptPoint.duringPacing 0))).1 ∧
    Event.termSignal 1 ∉ (runMain envX rootX ["a.json", "b.json"]
      (some (InterruptPoint.duringPacing 0))).1 :=
  ⟨by rfl, by decide, by decide⟩

/-- C1 (amended): an interrupt received during the Supervising (join) phase
is caught: every tracked handle receives a termination signal, every
handle's exit is confirmed before the supervisor returns, and the run ends
normally.  (An interrupt during Pacing, by contrast, is not handled.) -/
theorem interrupt_during_supervising_terminates_all (env : Env)
    (root listing : List String) (gs : GlobalSettings) (profiles : List Profile) (k : Nat)
    (hload : loadInstancesFromEnv env true listing = Except.ok (gs, profiles))
    (hk : k < (spawnPhase gs root profiles.length profiles 1 none).2.1.length) :
    (runMain env root listing (some (InterruptPoint.duringJoin k))).2 = Outcome.normal ∧
    ∀ i < (spawnPhase gs root profiles.length profiles 1 none).2.1.length,
      Event.termSignal i ∈ (runMain env root listing (some (InterruptPoint.duringJoin k))).1 ∧
      Event.joinConfirm i ∈ (runMain env root listing (some (InterruptPoint.duringJoin k))).1 := by
  have hpe := load_ok_isEmpty hload
  have hflag := spawnPhase_none_flag gs root profiles.length profiles 1
  have hione : (spawnPhase gs root profiles.length profiles 1 none).2.1.isEmpty = false := by
    cases hc : (spawnPhase gs root profiles.length profiles 1 none).2.1 with
    | nil => rw [hc] at hk; simp at hk
    | cons a as => rfl
  have hrange : k < (List.range
      (spawnPhase gs root profiles.length profiles 1 none).2.1.length).length := by
    simpa using hk
  have hjoin := joinLoop_interrupt
    (spawnPhase gs root profiles.length profiles 1 none).2.1.length
    (List.range (spawnPhase gs root profiles.length profiles 1 none).2.1.length) k hrange
  have hrun : runMain env root listing (some (InterruptPoint.duringJoin k))
      = ((spawnPhase gs root profiles.length profiles 1 none).1
          ++ (((List.range (spawnPhase gs root profiles.length profiles 1 none).2.1.length).take
                k).map Event.joinConfirm
              ++ sweepEvents (spawnPhase gs root profiles.length profiles 1 none).2.1.length),
         Outcome.normal) := by
    simp only [runMain, hload]
    simp [hpe, hflag, hione, hjoin]
  rw [hrun]
  refine ⟨rfl, fun i hi => ⟨?_, ?_⟩⟩
  · exact List.mem_append_right _ (List.mem_append_right _ (mem_sweepEvents_term hi))
  · exact List.mem_append_right _ (List.mem_append_right _ (mem_sweepEvents_join hi))

/-- C1 witness: two tracked workers, interrupt during the first join: the run
ends normally and worker 1 receives a termination signal and a join
confirmation. -/
theorem interrupt_during_supervising_terminates_all_witness :
    loadInstancesFromEnv envX true ["a.json", "b.json"]
      = Except.ok (gsX, [{ cookie_file := "a.json" }, { cookie_file := "b.json" }]) ∧
    0 < (spawnPhase gsX rootX 2 [{ cookie_file := "a.json" }, { cookie_file := "b.json" }]
          1 none).2.1.length ∧
    (runMain envX rootX ["a.json", "b.json"] (some (InterruptPoint.duringJoin 0))).2
      = Outcome.normal ∧
    Event.termSignal 1 ∈ (runMain envX rootX ["a.json", "b.json"]
      (some (InterruptPoint.duringJoin 0))).1 ∧
    Event.joinConfirm 1 ∈ (runMain envX rootX ["a.json", "b.json"]
      (some (InterruptPoint.duringJoin 0))).1 :=
  ⟨by rfl, by decide,
   (interrupt_during_supervising_terminates_all envX rootX ["a.json", "b.json"] gsX
     [{ cookie_file := "a.json" }, { cookie_file := "b.json" }] 0 (by rfl) (by decide)).1,
   ((interrupt_during_supervising_terminates_all envX rootX ["a.json", "b.json"] gsX
     [{ cookie_file := "a.json" }, { cookie_file := "b.json" }] 0 (by rfl) (by decide)).2
     1 (by decide)).1,
   ((interrupt_during_supervising_terminates_all envX rootX ["a.json", "b.json"] gsX
     [{ cookie_file := "a.json" }, { cookie_file := "b.json" }] 0 (by rfl) (by decide)).2
     1 (by decide)).2⟩

